import Mathlib

/-!
Verification development for the disca repository: a bounded LRU disk cache
(src/disk_cache.rs) coordinated with a peer-to-peer file-exchange event loop
(src/file_sharing.rs) through a top-level facade (src/lib.rs).

The Rust code is shallowly embedded: byte blobs are lists of naturals, the
filesystem under the cache root is an association list from file name to
blob, the LRU index is an ordered association list from key to recorded
size, and notifier calls are recorded as an event trace.  Fallible
operations return explicit outcomes; a Rust panic (unwrap or expect on a
failed value) is modelled by an explicit panic outcome.
-/

namespace DiscaSpec

/-- A stored blob: a byte sequence, one natural per byte. -/
abbrev Bytes := List Nat

/-! ### LRU index

Modelled from the spec: the LRU index is provided by the external dependency
sccache (the field `lru: sccache::lru_disk_cache::LruCache<String, u64, H,
DiskCacheMeter>` in src/disk_cache.rs), whose source is not part of this
repository.  The spec describes it as "an ordered mapping from `Key` to the
stored byte size (u64).  Order encodes recency of access;
most-recently-touched at one end.  Capacity is a configured byte total;
`current_size = Σ sizes`", and describes the insert used by the cache as
"records `(key, len)` into the LRU (which becomes MRU)".  We model exactly
that: an ordered association list, least-recently-used entry at the head,
most-recently-used entry at the tail. -/

/-- Modelled from the spec: the LRU index of the disk cache (the sccache
`LruCache` value, external to this repository).  `entries` is ordered by
recency, head is least recently used; `capacity` is the configured byte
total. -/
structure LruCache where
  entries : List (String × Nat)
  capacity : Nat
deriving Repr, DecidableEq

namespace LruCache

/-- Modelled from the spec: `current_size = Σ sizes` of the recorded entries. -/
def size (c : LruCache) : Nat :=
  (c.entries.map Prod.snd).sum

/-- Modelled from the spec: key membership in the LRU index. -/
def contains_key (c : LruCache) (k : String) : Bool :=
  c.entries.any (fun e => e.fst == k)

/-- Modelled from the spec: insert "records `(key, len)` into the LRU (which
becomes MRU)"; any previous entry for the key is replaced. -/
def insert (c : LruCache) (k : String) (v : Nat) : LruCache :=
  { c with entries := c.entries.filter (fun e => e.fst != k) ++ [(k, v)] }

/-- Modelled from the spec: a lookup marks the key as most recently used
("marks key as most-recently used if present; no error on absence"). -/
def get (c : LruCache) (k : String) : LruCache :=
  match c.entries.find? (fun e => e.fst == k) with
  | none => c
  | some e => { c with entries := c.entries.filter (fun x => x.fst != k) ++ [e] }

/-- Modelled from the spec: remove the least-recently-used entry, returning
it together with the remaining index; nothing on an empty index. -/
def remove_lru (c : LruCache) : Option ((String × Nat) × LruCache) :=
  match c.entries with
  | [] => none
  | e :: rest => some (e, { c with entries := rest })

end LruCache

/-! ### Filesystem under the cache root

The files under `root`, one regular file per key, raw bytes. -/

/-- Contents of the cache root directory: file name to raw bytes. -/
abbrev Fs := List (String × Bytes)

/-- Embedding of `tokio::fs::write(root.join(key), buf)`: create or overwrite
the file. -/
def fsWrite (fs : Fs) (k : String) (b : Bytes) : Fs :=
  fs.filter (fun e => e.fst != k) ++ [(k, b)]

/-- Embedding of opening `root/key` for reading: the blob when the file
exists, `none` for the not-found case (`ErrorKind::NotFound`). -/
def fsRead (fs : Fs) (k : String) : Option Bytes :=
  (fs.find? (fun e => e.fst == k)).map Prod.snd

/-- File-existence test under the cache root. -/
def fsHas (fs : Fs) (k : String) : Bool :=
  fs.any (fun e => e.fst == k)

/-- Embedding of `tokio::fs::remove_file(root.join(key))`: succeeds exactly
when the file exists, errors (not-found) otherwise. -/
def fsRemove (fs : Fs) (k : String) : Except Unit Fs :=
  if fsHas fs k then
    Except.ok (fs.filter (fun e => e.fst != k))
  else
    Except.error ()

/-! ### Disk cache (src/disk_cache.rs) -/

/-- A call made on the `FileNotifier` handle by the disk cache. -/
inductive NotifyEvent
  | added (key : String)
  | removed (key : String)
deriving Repr, DecidableEq

/-- State owned by `DiskCache`: the LRU index and the files under `root`. -/
structure DiskCacheState where
  lru : LruCache
  fs : Fs
deriving Repr, DecidableEq

namespace DiskCache

/-- Embedding of the batch-collection loop of `DiskCache::evict`:
`(1..files_to_evict).filter_map(|_| self.lru.remove_lru())`.  The argument
`n` is the iteration count `files_to_evict - 1` (zero when
`files_to_evict ≤ 1`, since the Rust range `1..files_to_evict` is then
empty).  Returns the removed entries in removal order and the remaining
index. -/
def evictBatch : Nat → LruCache → List (String × Nat) × LruCache
  | 0, c => ([], c)
  | n + 1, c =>
    match c.remove_lru with
    | none => ([], c)
    | some (e, c') =>
      let p := evictBatch n c'
      (e :: p.fst, p.snd)

/-- Embedding of the deletion phase of `DiskCache::evict`: for each removed
`(key, size)`, delete `root/key`; on deletion failure reinstate `(key, size)`
into the LRU, on success record the `removed(key)` notifier call.  The
`join_all` of src/disk_cache.rs polls the deletion futures in batch order;
the pure model processes them in that order. -/
def evictDeletions (s : DiskCacheState) :
    List (String × Nat) → DiskCacheState × List NotifyEvent
  | [] => (s, [])
  | e :: rest =>
    match fsRemove s.fs e.fst with
    | Except.error _ =>
      evictDeletions { s with lru := s.lru.insert e.fst e.snd } rest
    | Except.ok fs' =>
      let p := evictDeletions { s with fs := fs' } rest
      (p.fst, NotifyEvent.removed e.fst :: p.snd)

/-- Embedding of `DiskCache::evict` for a cache constructed with batch
parameter `files_to_evict`: remove up to `files_to_evict - 1` LRU entries,
then run the deletions with rollback. -/
def evict (files_to_evict : Nat) (s : DiskCacheState) :
    DiskCacheState × List NotifyEvent :=
  let p := evictBatch (files_to_evict - 1) s.lru
  evictDeletions { s with lru := p.snd } p.fst

/-- Embedding of `DiskCache::insert`: a key already in the LRU returns at
once with no effect; otherwise, when `current_size + len(buf)` would exceed
capacity, one `evict` pass runs first; then the entry is recorded in the
LRU, the file is written, and the notifier call `added(key)` is made.
Returns the new state and the notifier calls in order. -/
def insert (files_to_evict : Nat) (s : DiskCacheState) (k : String)
    (b : Bytes) : DiskCacheState × List NotifyEvent :=
  if s.lru.contains_key k then (s, [])
  else
    let p :=
      if s.lru.size + b.length > s.lru.capacity then
        evict files_to_evict s
      else (s, [])
    ({ lru := p.fst.lru.insert k b.length, fs := fsWrite p.fst.fs k b },
      p.snd ++ [NotifyEvent.added k])

/-- Embedding of `DiskCache::get`: touch the key in the LRU, then open
`root/key`; `none` exactly when the file is absent. -/
def get (s : DiskCacheState) (k : String) : DiskCacheState × Option Bytes :=
  ({ s with lru := s.lru.get k }, fsRead s.fs k)

/-- Embedding of `DiskCache::touch`. -/
def touch (s : DiskCacheState) (k : String) : DiskCacheState :=
  { s with lru := s.lru.get k }

end DiskCache

/-- Keys recorded in the LRU index all have a backing file under `root`
(the file-and-index agreement the spec states for admitted keys). -/
def fileIndexAgree (s : DiskCacheState) : Prop :=
  ∀ e ∈ s.lru.entries, fsHas s.fs e.fst = true

/-- The LRU index holds at most one entry per key (guaranteed by the map
underlying the real index). -/
def lruKeysNodup (s : DiskCacheState) : Prop :=
  (s.lru.entries.map Prod.fst).Nodup

instance (s : DiskCacheState) : Decidable (fileIndexAgree s) := by
  unfold fileIndexAgree; infer_instance

instance (s : DiskCacheState) : Decidable (lruKeysNodup s) := by
  unfold lruKeysNodup; infer_instance

/-! ### Operation sequences on the disk cache

For the reachable-state properties the spec quantifies over ("for every
sequence of insert and evict operations"), runs start at the state of a
freshly constructed cache: empty LRU index with the configured capacity,
empty root directory.  `RunState.truncated` records whether some eviction
pass in the run ended at the `files_to_evict - 1` batch limit while entries
were still left in the index. -/

/-- Operations of the capacity-bound claim: `DiskCache::insert` and
`DiskCache::evict`. -/
inductive CacheOp
  | insert (k : String) (b : Bytes)
  | evict
deriving Repr, DecidableEq

/-- Whether a `DiskCache::insert` call from state `s` triggers an eviction
pass that ends at the batch limit with entries still in the index. -/
def insertTruncates (files_to_evict : Nat) (s : DiskCacheState) (k : String)
    (b : Bytes) : Bool :=
  !s.lru.contains_key k &&
    decide (s.lru.size + b.length > s.lru.capacity) &&
    !(DiskCache.evictBatch (files_to_evict - 1) s.lru).snd.entries.isEmpty

/-- Whether a `DiskCache::evict` call from state `s` ends at the batch limit
with entries still in the index. -/
def evictTruncates (files_to_evict : Nat) (s : DiskCacheState) : Bool :=
  !(DiskCache.evictBatch (files_to_evict - 1) s.lru).snd.entries.isEmpty

/-- A cache state together with the truncated-eviction history flag. -/
structure RunState where
  cache : DiskCacheState
  truncated : Bool
deriving Repr, DecidableEq

/-- One operation of a run. -/
def applyOp (files_to_evict : Nat) (r : RunState) : CacheOp → RunState
  | CacheOp.insert k b =>
    { cache := (DiskCache.insert files_to_evict r.cache k b).fst,
      truncated := r.truncated || insertTruncates files_to_evict r.cache k b }
  | CacheOp.evict =>
    { cache := (DiskCache.evict files_to_evict r.cache).fst,
      truncated := r.truncated || evictTruncates files_to_evict r.cache }

/-- State of a freshly constructed cache (`DiskCache::new`): empty index with
the configured capacity, empty root directory. -/
def initRun (capacity : Nat) : RunState :=
  { cache := { lru := { entries := [], capacity := capacity }, fs := [] },
    truncated := false }

/-- Run a sequence of operations from the fresh state. -/
def runOps (files_to_evict capacity : Nat) (ops : List CacheOp) : RunState :=
  ops.foldl (applyOp files_to_evict) (initRun capacity)

/-- The size disjunction of the capacity-bound claim: the recorded sizes sum
to at most the capacity, or the cache holds exactly one blob and its size
exceeds the capacity. -/
def sizeOk (s : DiskCacheState) : Prop :=
  s.lru.size ≤ s.lru.capacity ∨
    ∃ e, s.lru.entries = [e] ∧ s.lru.capacity < e.snd

/-- Invariant of runs: file-and-index agreement, key uniqueness, and the
capacity bound whenever no eviction pass has been truncated. -/
def goodRun (r : RunState) : Prop :=
  fileIndexAgree r.cache ∧ lruKeysNodup r.cache ∧
    (r.truncated = false → sizeOk r.cache)

/-! ### Top-level facade (src/lib.rs)

`Disca::get` composes the disk cache with the network facade.  The network
round-trip `self.file_sharing.get_file(path)` is a parameter of the model:
its `Result<Option<Vec<u8>>>` outcome. -/

/-- Embedding of `Disca::get`: query the disk cache; on a hit return the
handle; on a miss consult the network, and when it yields bytes insert them
into the cache and return the handle produced by re-reading the cache; when
the network also reports absent, return `none`.  A network error propagates.
Returns the final cache state, the notifier calls made, and the result. -/
def Disca.get (files_to_evict : Nat) (s : DiskCacheState) (path : String)
    (network : Except String (Option Bytes)) :
    Except String (DiskCacheState × List NotifyEvent × Option Bytes) :=
  let g := DiskCache.get s path
  match g.snd with
  | some file => Except.ok (g.fst, [], some file)
  | none =>
    match network with
    | Except.error e => Except.error e
    | Except.ok (some content) =>
      let p := DiskCache.insert files_to_evict g.fst path content
      let g2 := DiskCache.get p.fst path
      Except.ok (g2.fst, p.snd, g2.snd)
    | Except.ok none => Except.ok (g.fst, [], none)

/-! ### The concrete notifier (src/lib.rs, FileNotifier for FileSharingP2P)

The trait methods `added` and `removed` return no error value; the impl for
`FileSharingP2P` calls `add_file` or `remove_file` and applies `unwrap()` to
the returned `Result`, so a failed round-trip becomes a panic inside the
cache operation that awaited the notifier. -/

/-- Outcome of Rust code that may panic. -/
inductive PanicOr (α : Type)
  | panic (msg : String)
  | ok (a : α)
deriving Repr, DecidableEq

/-- True exactly on the panic outcome. -/
def PanicOr.isPanic {α : Type} : PanicOr α → Bool
  | PanicOr.panic _ => true
  | PanicOr.ok _ => false

/-- Embedding of the `FileSharingP2P::add_file` (or `remove_file`) round
trip as seen by the notifier: when the command channel to the event loop is
closed the send (or the reply await) fails; otherwise the
reply of the event loop is returned. -/
def roundTrip (channelOpen : Bool) (reply : Except String Unit) :
    Except String Unit :=
  if channelOpen then reply else Except.error "channel closed"

/-- Embedding of `FileNotifier::added` for `FileSharingP2P` (src/lib.rs):
`self.add_file(path).await.unwrap()` — an `Err` round trip panics. -/
def notifierAdded (channelOpen : Bool) (reply : Except String Unit) :
    PanicOr Unit :=
  match roundTrip channelOpen reply with
  | Except.ok _ => PanicOr.ok ()
  | Except.error e => PanicOr.panic e

/-- Embedding of `FileNotifier::removed` for `FileSharingP2P` (src/lib.rs):
`self.remove_file(path).await.unwrap()` — an `Err` round trip panics. -/
def notifierRemoved (channelOpen : Bool) (reply : Except String Unit) :
    PanicOr Unit :=
  match roundTrip channelOpen reply with
  | Except.ok _ => PanicOr.ok ()
  | Except.error e => PanicOr.panic e

/-- Run the notifier calls a cache operation makes, in order, through the
concrete `FileSharingP2P` notifier; the cache awaits each call inline, so a
panic aborts the cache operation.  `replies` gives the reply of the event loop
for each path. -/
def runNotifier (channelOpen : Bool) (replies : String → Except String Unit) :
    List NotifyEvent → PanicOr Unit
  | [] => PanicOr.ok ()
  | NotifyEvent.added k :: rest =>
    match notifierAdded channelOpen (replies k) with
    | PanicOr.panic m => PanicOr.panic m
    | PanicOr.ok _ => runNotifier channelOpen replies rest
  | NotifyEvent.removed k :: rest =>
    match notifierRemoved channelOpen (replies k) with
    | PanicOr.panic m => PanicOr.panic m
    | PanicOr.ok _ => runNotifier channelOpen replies rest

/-- A `DiskCache::insert` together with the concrete notifier of src/lib.rs:
the outcome observed by the caller of the cache operation. -/
def insertWithP2PNotifier (files_to_evict : Nat) (channelOpen : Bool)
    (replies : String → Except String Unit) (s : DiskCacheState) (k : String)
    (b : Bytes) : PanicOr (DiskCacheState × List NotifyEvent) :=
  let p := DiskCache.insert files_to_evict s k b
  match runNotifier channelOpen replies p.snd with
  | PanicOr.panic m => PanicOr.panic m
  | PanicOr.ok _ => PanicOr.ok p

/-! ### Event loop (src/file_sharing.rs)

The `EventLoop` owns the swarm and four correlation tables mapping abstract
ids (query id, request id, listener id, all modelled as naturals) to
one-shot reply sinks.  A sink is modelled by whether its receiver is still
alive: `tokio::sync::oneshot::Sender::send` fails exactly when the receiver
was dropped, and every delivery site in the source applies
`.expect("send should work")` to that result.  Deliveries that succeed are
recorded in a log.  Multiaddresses and peer ids are abstract (`String`,
`Nat`). -/

/-- A pending-correlation table: abstract id to the liveness of the
registered one-shot sink.  The real `DashMap` holds at most one sink per
id. -/
def PendingMap := Nat → Option Bool

/-- Table update: register a sink under an id. -/
def mapInsert (m : PendingMap) (i : Nat) (alive : Bool) : PendingMap :=
  fun j => if j = i then some alive else m j

/-- Table update: remove the entry of an id. -/
def mapRemove (m : PendingMap) (i : Nat) : PendingMap :=
  fun j => if j = i then none else m j

/-- A reply successfully delivered through a one-shot sink, tagged with the
table and id it was correlated under. -/
inductive Delivery
  | getFileReply (requestId : Nat) (content : Option Bytes)
  | providersEmpty (queryId : Nat)
  | providersFinished (queryId : Nat)
  | providersFailed (queryId : Nat)
  | startProvidingReply (queryId : Nat) (ok : Bool)
  | listenAddrReply (listenerId : Nat) (addr : String)
  | addFileFailed
  | removeFileOk
  | addPeerReply (ok : Bool)
  | startListeningFailed
  | respondedToRequest (path : String) (content : Option Bytes)
deriving Repr, DecidableEq

/-- State of the event loop visible to the model: the four correlation
tables, the DHT routing additions made, the requests sent, and the log of
successful deliveries. -/
structure LoopState where
  pending_start_providing : PendingMap
  pending_get_providers : PendingMap
  pending_get_file : PendingMap
  pending_start_listening : PendingMap
  routing : List (Nat × String)
  sentRequests : List (Nat × Nat × String)
  delivered : List Delivery

/-- Loop state at spawn: all tables empty. -/
def emptyLoop : LoopState :=
  { pending_start_providing := fun _ => none,
    pending_get_providers := fun _ => none,
    pending_get_file := fun _ => none,
    pending_start_listening := fun _ => none,
    routing := [], sentRequests := [], delivered := [] }

/-- Outcomes of the synchronous swarm calls the loop makes while handling
one command or event: environment of a single step. -/
structure SwarmEnv where
  startProvidingQuery : Except String Nat
  getProvidersQuery : Nat
  dialOk : Bool
  listenOn : Except String Nat
  nextRequestId : Nat

/-- Embedding of `sender.send(x).expect("send should work")`: when the
receiver is alive the delivery is logged; when it was dropped the send
fails and the `expect` panics. -/
def expectSend (alive : Bool) (s : LoopState) (d : Delivery) :
    PanicOr LoopState :=
  if alive then PanicOr.ok { s with delivered := s.delivered ++ [d] }
  else PanicOr.panic "send should work"

/-- A command on the channel of the event loop; each carries the liveness of its
one-shot reply sink. -/
inductive Command
  | addFile (path : String) (sinkAlive : Bool)
  | removeFile (path : String) (sinkAlive : Bool)
  | getFile (path : String) (sinkAlive : Bool)
  | addPeer (addr : String) (sinkAlive : Bool)
  | startListening (addr : String) (sinkAlive : Bool)

/-- Embedding of `EventLoop::handle_command` (src/file_sharing.rs).  The
`None` arm of the match (closed command channel) executes `return;`, which
leaves `handle_command` with no effect on the loop state. -/
def handle_command (env : SwarmEnv) (s : LoopState) :
    Option Command → PanicOr LoopState
  | none => PanicOr.ok s
  | some (Command.addFile _ alive) =>
    match env.startProvidingQuery with
    | Except.ok qid =>
      PanicOr.ok
        { s with pending_start_providing :=
            mapInsert s.pending_start_providing qid alive }
    | Except.error _ => expectSend alive s Delivery.addFileFailed
  | some (Command.removeFile _ alive) =>
    expectSend alive s Delivery.removeFileOk
  | some (Command.getFile _ alive) =>
    PanicOr.ok
      { s with pending_get_providers :=
          mapInsert s.pending_get_providers env.getProvidersQuery alive }
  | some (Command.addPeer _ alive) =>
    expectSend alive s (Delivery.addPeerReply env.dialOk)
  | some (Command.startListening _ alive) =>
    match env.listenOn with
    | Except.ok lid =>
      PanicOr.ok
        { s with pending_start_listening :=
            mapInsert s.pending_start_listening lid alive }
    | Except.error _ => expectSend alive s Delivery.startListeningFailed

/-- Embedding of `EventLoop::get_file`: pick one provider from the set; when
there is one, send it a `FileRequest` and register the forwarded sink under
the new request id; when the set is empty, deliver `Ok(None)`. -/
def loop_get_file (env : SwarmEnv) (s : LoopState) (qid : Nat) (key : String)
    (providers : List Nat) (alive : Bool) : PanicOr LoopState :=
  match providers.head? with
  | some provider =>
    PanicOr.ok
      { s with
        pending_get_file := mapInsert s.pending_get_file env.nextRequestId alive,
        sentRequests := s.sentRequests ++ [(env.nextRequestId, provider, key)] }
  | none => expectSend alive s (Delivery.providersEmpty qid)

/-- Embedding of `EventLoop::handle_response`: look up and remove the
pending sink of the request id and deliver the response content; an unknown
request id is ignored. -/
def handle_response (s : LoopState) (rid : Nat) (content : Option Bytes) :
    PanicOr LoopState :=
  match s.pending_get_file rid with
  | none => PanicOr.ok s
  | some alive =>
    expectSend alive { s with pending_get_file := mapRemove s.pending_get_file rid }
      (Delivery.getFileReply rid content)

/-- One inbound network event, as matched by `EventLoop::handle_event`.  A
DHT `FoundProviders` key is raw bytes decoded with
`expect("key should be valid utf8")`; the model carries the decode outcome
(`none` for invalid UTF-8). -/
inductive NetEvent
  | newListenAddr (lid : Nat) (addr : String)
  | identifyReceived (peer : Nat) (listen_addrs : List String)
  | startProvidingProgressed (qid : Nat) (ok : Bool)
  | getProvidersFound (qid : Nat) (keyUtf8 : Option String) (providers : List Nat)
  | getProvidersFinished (qid : Nat)
  | getProvidersFailed (qid : Nat)
  | requestMsg (path : String) (channelOk : Bool)
  | responseMsg (rid : Nat) (content : Option Bytes)
  | other

/-- Embedding of `EventLoop::handle_event` (src/file_sharing.rs).
`fileProvider` is the `FileProvider` callback used for inbound requests. -/
def handle_event (env : SwarmEnv) (fileProvider : String → Option Bytes)
    (s : LoopState) : NetEvent → PanicOr LoopState
  | NetEvent.newListenAddr lid addr =>
    match s.pending_start_listening lid with
    | none => PanicOr.ok s
    | some alive =>
      expectSend alive
        { s with pending_start_listening := mapRemove s.pending_start_listening lid }
        (Delivery.listenAddrReply lid addr)
  | NetEvent.identifyReceived peer listen_addrs =>
    match listen_addrs.head? with
    | none => PanicOr.panic "called Option unwrap on a None value"
    | some addr => PanicOr.ok { s with routing := s.routing ++ [(peer, addr)] }
  | NetEvent.startProvidingProgressed qid ok =>
    match s.pending_start_providing qid with
    | none => PanicOr.ok s
    | some alive =>
      expectSend alive
        { s with pending_start_providing := mapRemove s.pending_start_providing qid }
        (Delivery.startProvidingReply qid ok)
  | NetEvent.getProvidersFound qid keyUtf8 providers =>
    match s.pending_get_providers qid with
    | none => PanicOr.ok s
    | some alive =>
      let s' := { s with pending_get_providers := mapRemove s.pending_get_providers qid }
      match keyUtf8 with
      | none => PanicOr.panic "key should be valid utf8"
      | some key => loop_get_file env s' qid key providers alive
  | NetEvent.getProvidersFinished qid =>
    match s.pending_get_providers qid with
    | none => PanicOr.ok s
    | some alive =>
      expectSend alive
        { s with pending_get_providers := mapRemove s.pending_get_providers qid }
        (Delivery.providersFinished qid)
  | NetEvent.getProvidersFailed qid =>
    match s.pending_get_providers qid with
    | none => PanicOr.ok s
    | some alive =>
      expectSend alive
        { s with pending_get_providers := mapRemove s.pending_get_providers qid }
        (Delivery.providersFailed qid)
  | NetEvent.requestMsg path channelOk =>
    expectSend channelOk s (Delivery.respondedToRequest path (fileProvider path))
  | NetEvent.responseMsg rid content => handle_response s rid content
  | NetEvent.other => PanicOr.ok s

/-- One iteration of the `select!` in `EventLoop::run`: either a value from
the command channel (`none` when the channel has closed) or a swarm event.
The returned flag states whether this iteration makes `run` leave its
loop; the loop body of the source contains no `break` or `return`, so the
flag is `false` for every input — in particular for the closed-channel
input, whose `return;` only leaves `handle_command`. -/
def runStep (env : SwarmEnv) (fileProvider : String → Option Bytes)
    (s : LoopState) : Option Command ⊕ NetEvent → PanicOr LoopState × Bool
  | Sum.inl c => (handle_command env s c, false)
  | Sum.inr e => (handle_event env fileProvider s e, false)

/-- Process a stream of `Response` messages: the loop handles them one at a
time; a panic kills the event-loop task, ending the run with no further
deliveries. -/
def processResponses (s : LoopState) :
    List (Nat × Option Bytes) → LoopState
  | [] => s
  | r :: rest =>
    match handle_response s r.fst r.snd with
    | PanicOr.panic _ => s
    | PanicOr.ok s' => processResponses s' rest

/-- Number of logged deliveries of `GetFile` replies for a given request
id. -/
def countReplies (rid : Nat) (l : List Delivery) : Nat :=
  l.countP (fun d =>
    match d with
    | Delivery.getFileReply r _ => r == rid
    | _ => false)

/-! ### Concrete instances used in evaluations -/

/-- Run witnessing the capacity-bound violation: capacity 10,
`files_to_evict = 2`, blobs of sizes 4, 4 and 8. -/
def overflowOps : List CacheOp :=
  [CacheOp.insert "a" [0, 0, 0, 0],
   CacheOp.insert "b" [0, 0, 0, 0],
   CacheOp.insert "c" [0, 0, 0, 0, 0, 0, 0, 0]]

/-- Run in which no eviction pass is truncated: capacity 10,
`files_to_evict = 3`, blobs of sizes 3, 3 and 4. -/
def settledOps : List CacheOp :=
  [CacheOp.insert "a" [0, 0, 0],
   CacheOp.insert "b" [0, 0, 0],
   CacheOp.insert "d" [0, 0, 0, 0]]

/-- A small consistent cache state: one key with a backing file. -/
def demoState : DiskCacheState :=
  { lru := { entries := [("x", 1)], capacity := 10 }, fs := [("x", [7])] }

/-- Loop state with one pending `GetFile` sink whose receiver was dropped. -/
def deadSinkLoop : LoopState :=
  { emptyLoop with pending_get_file := mapInsert emptyLoop.pending_get_file 5 false }

/-- Loop state with one pending `GetFile` sink whose receiver is alive. -/
def liveSinkLoop : LoopState :=
  { emptyLoop with pending_get_file := mapInsert emptyLoop.pending_get_file 3 true }

/-- A fixed swarm environment for concrete evaluations. -/
def env0 : SwarmEnv :=
  { startProvidingQuery := Except.ok 0, getProvidersQuery := 0,
    dialOk := true, listenOn := Except.ok 0, nextRequestId := 0 }

/-- A file provider with no files. -/
def fp0 : String → Option Bytes := fun _ => none

/-! ### Lemmas on the LRU index and the filesystem model -/

namespace LruCache

lemma filter_eq_of_not_contains (c : LruCache) (k : String)
    (h : c.contains_key k = false) :
    c.entries.filter (fun e => e.fst != k) = c.entries := by
  apply List.filter_eq_self.mpr
  intro e he
  simp only [contains_key] at h
  rw [List.any_eq_false] at h
  simpa [bne_iff_ne] using h e he

lemma insert_entries_of_not_contains (c : LruCache) (k : String) (v : Nat)
    (h : c.contains_key k = false) :
    (c.insert k v).entries = c.entries ++ [(k, v)] := by
  simp [insert, filter_eq_of_not_contains c k h]

lemma insert_size_of_not_contains (c : LruCache) (k : String) (v : Nat)
    (h : c.contains_key k = false) :
    (c.insert k v).size = c.size + v := by
  simp [size, insert_entries_of_not_contains c k v h]

lemma insert_capacity (c : LruCache) (k : String) (v : Nat) :
    (c.insert k v).capacity = c.capacity := rfl

lemma contains_key_insert_self (c : LruCache) (k : String) (v : Nat) :
    (c.insert k v).contains_key k = true := by
  simp [insert, contains_key]

lemma insert_entries_getLast (c : LruCache) (k : String) (v : Nat) :
    (c.insert k v).entries.getLast? = some (k, v) := by
  simp [insert]

lemma get_of_not_contains (c : LruCache) (k : String)
    (h : c.contains_key k = false) :
    c.get k = c := by
  have hf : c.entries.find? (fun e => e.fst == k) = none := by
    apply List.find?_eq_none.mpr
    intro e he
    simp only [contains_key] at h
    rw [List.any_eq_false] at h
    simpa using h e he
  simp [get, hf]

end LruCache

lemma fsRead_isSome_eq_fsHas (fs : Fs) (k : String) :
    (fsRead fs k).isSome = fsHas fs k := by
  induction fs with
  | nil => rfl
  | cons e rest ih =>
    by_cases h : (e.fst == k) = true
    · simp [fsRead, fsHas, List.find?_cons_of_pos _ h, h]
    · simp only [fsRead, fsHas] at ih ⊢
      simp [List.find?_cons_of_neg _ h, List.any_cons, h, ih]

lemma find?_append_of_none {α : Type} (l₁ l₂ : List α) (p : α → Bool)
    (h : l₁.find? p = none) : (l₁ ++ l₂).find? p = l₂.find? p := by
  induction l₁ with
  | nil => rfl
  | cons a rest ih =>
    rw [List.find?_eq_none] at h
    have ha : ¬ p a = true := h a (by simp)
    rw [List.cons_append, List.find?_cons_of_neg _ ha]
    exact ih (List.find?_eq_none.mpr fun x hx => h x (by simp [hx]))

lemma find?_filter_ne (fs : Fs) (k : String) :
    (fs.filter (fun e => e.fst != k)).find? (fun e => e.fst == k) = none := by
  rw [List.find?_eq_none]
  intro e he
  have := (List.mem_filter.mp he).2
  simpa [bne_iff_ne] using this

lemma fsRead_fsWrite_self (fs : Fs) (k : String) (b : Bytes) :
    fsRead (fsWrite fs k b) k = some b := by
  simp [fsRead, fsWrite, find?_append_of_none _ _ _ (find?_filter_ne fs k)]

lemma fsHas_filter_of_ne (fs : Fs) (k k2 : String) (h : k2 ≠ k) :
    fsHas (fs.filter (fun e => e.fst != k)) k2 = fsHas fs k2 := by
  rw [Bool.eq_iff_iff]
  simp only [fsHas, List.any_eq_true]
  constructor
  · rintro ⟨e, he, hk⟩
    exact ⟨e, (List.mem_filter.mp he).1, hk⟩
  · rintro ⟨e, he, hk⟩
    refine ⟨e, List.mem_filter.mpr ⟨he, ?_⟩, hk⟩
    have : e.fst = k2 := by simpa using hk
    simpa [bne_iff_ne, this] using h

lemma fsHas_fsWrite_self (fs : Fs) (k : String) (b : Bytes) :
    fsHas (fsWrite fs k b) k = true := by
  simp [fsHas, fsWrite, List.any_append]

lemma fsHas_fsWrite_mono (fs : Fs) (k k2 : String) (b : Bytes)
    (h : fsHas fs k2 = true) : fsHas (fsWrite fs k b) k2 = true := by
  by_cases hk : k2 = k
  · subst hk; exact fsHas_fsWrite_self fs k2 b
  · simp only [fsWrite, fsHas, List.any_append]
    rw [← fsHas_filter_of_ne fs k k2 hk] at h
    simp [fsHas] at h
    simp [h]

lemma fsRead_eq_none_of_not_has (fs : Fs) (k : String)
    (h : fsHas fs k = false) : fsRead fs k = none := by
  have := fsRead_isSome_eq_fsHas fs k
  rw [h] at this
  simpa using this

lemma fsHas_false_of_fsRead_none (fs : Fs) (k : String)
    (h : fsRead fs k = none) : fsHas fs k = false := by
  have := fsRead_isSome_eq_fsHas fs k
  rw [h] at this
  simpa using this.symm

/-! ### Lemmas on eviction -/

namespace DiskCache

lemma evictBatch_eq (n : Nat) (c : LruCache) :
    evictBatch n c =
      (c.entries.take n, { entries := c.entries.drop n, capacity := c.capacity }) := by
  induction n generalizing c with
  | zero => cases c; rfl
  | succ m ih =>
    cases c with
    | mk entries capacity =>
      cases entries with
      | nil => rfl
      | cons e rest =>
        simp only [evictBatch, LruCache.remove_lru, List.take_succ_cons,
          List.drop_succ_cons]
        rw [ih { entries := rest, capacity := capacity }]

/-- When the batch keys are distinct and each has a backing file, every
deletion of the pass succeeds: nothing is reinstated into the LRU, each
removal is notified, and files of keys outside the batch survive. -/
lemma evictDeletions_all_ok (batch : List (String × Nat)) (s : DiskCacheState)
    (hnd : (batch.map Prod.fst).Nodup)
    (hin : ∀ e ∈ batch, fsHas s.fs e.fst = true) :
    (evictDeletions s batch).fst.lru = s.lru ∧
    (evictDeletions s batch).snd = batch.map (fun e => NotifyEvent.removed e.fst) ∧
    ∀ k2, fsHas s.fs k2 = true → (∀ e ∈ batch, e.fst ≠ k2) →
      fsHas (evictDeletions s batch).fst.fs k2 = true := by
  induction batch generalizing s with
  | nil => exact ⟨rfl, rfl, fun k2 h _ => h⟩
  | cons e rest ih =>
    have he : fsHas s.fs e.fst = true := hin e (by simp)
    have hrm : fsRemove s.fs e.fst =
        Except.ok (s.fs.filter (fun x => x.fst != e.fst)) := by
      simp [fsRemove, he]
    have hnd' : (rest.map Prod.fst).Nodup := (List.nodup_cons.mp hnd).2
    have hkey : e.fst ∉ rest.map Prod.fst := (List.nodup_cons.mp hnd).1
    have hin' : ∀ e2 ∈ rest, fsHas (s.fs.filter (fun x => x.fst != e.fst)) e2.fst = true := by
      intro e2 he2
      have hne : e2.fst ≠ e.fst := by
        intro hc
        exact hkey (hc ▸ List.mem_map_of_mem Prod.fst he2)
      rw [fsHas_filter_of_ne _ _ _ hne]
      exact hin e2 (by simp [he2])
    have := ih { s with fs := s.fs.filter (fun x => x.fst != e.fst) } hnd' hin'
    refine ⟨?_, ?_, ?_⟩
    · simpa [evictDeletions, hrm] using this.1
    · simpa [evictDeletions, hrm] using this.2.1
    · intro k2 hk2 hnot
      have hne : e.fst ≠ k2 := hnot e (by simp)
      simp only [evictDeletions, hrm]
      exact this.2.2 k2 (by rw [fsHas_filter_of_ne _ _ _ (Ne.symm hne)]; exact hk2)
        (fun e2 he2 => hnot e2 (by simp [he2]))

end DiskCache

lemma contains_key_false_iff (c : LruCache) (k : String) :
    c.contains_key k = false ↔ ∀ e ∈ c.entries, e.fst ≠ k := by
  rw [LruCache.contains_key, List.any_eq_false]
  constructor
  · intro h e he
    simpa using h e he
  · intro h e he
    simpa using h e he

/-- Characterization of `DiskCache::evict` from a consistent state: every
deletion succeeds, the index is left with the entries the batch did not
reach, and consistency is preserved. -/
lemma evict_ok (ftE : Nat) (s : DiskCacheState) (hA : fileIndexAgree s)
    (hN : lruKeysNodup s) :
    (DiskCache.evict ftE s).fst.lru =
      { entries := s.lru.entries.drop (ftE - 1), capacity := s.lru.capacity } ∧
    fileIndexAgree (DiskCache.evict ftE s).fst ∧
    lruKeysNodup (DiskCache.evict ftE s).fst := by
  set n := ftE - 1 with hn
  have hkeys : (s.lru.entries.map Prod.fst).take n ++
      (s.lru.entries.map Prod.fst).drop n = s.lru.entries.map Prod.fst :=
    List.take_append_drop n _
  have hdisj : ∀ x, x ∈ (s.lru.entries.map Prod.fst).take n →
      x ∈ (s.lru.entries.map Prod.fst).drop n → False := by
    have hnd := hN
    rw [lruKeysNodup, ← hkeys] at hnd
    exact fun x hx1 hx2 => (List.nodup_append.mp hnd).2.2 hx1 hx2
  have hbatchnd : ((s.lru.entries.take n).map Prod.fst).Nodup := by
    rw [List.map_take]
    exact List.Nodup.sublist (List.take_sublist _ _) hN
  have hbatchin : ∀ e ∈ s.lru.entries.take n, fsHas s.fs e.fst = true :=
    fun e he => hA e (List.mem_of_mem_take he)
  have hstep := DiskCache.evictDeletions_all_ok (s.lru.entries.take n)
    { s with lru := { entries := s.lru.entries.drop n, capacity := s.lru.capacity } }
    hbatchnd hbatchin
  have heq : DiskCache.evict ftE s =
      DiskCache.evictDeletions
        { s with lru := { entries := s.lru.entries.drop n, capacity := s.lru.capacity } }
        (s.lru.entries.take n) := by
    rw [DiskCache.evict, DiskCache.evictBatch_eq]
  refine ⟨?_, ?_, ?_⟩
  · rw [heq]; exact hstep.1
  · rw [heq]
    intro e he
    rw [hstep.1] at he
    have hemem : e ∈ s.lru.entries := List.mem_of_mem_drop he
    refine hstep.2.2 e.fst (hA e hemem) ?_
    intro e2 he2 hfst
    apply hdisj e.fst
    · rw [← List.map_take, ← hfst]
      exact List.mem_map_of_mem Prod.fst he2
    · rw [← List.map_drop]
      exact List.mem_map_of_mem Prod.fst he
  · rw [lruKeysNodup, heq, hstep.1]
    rw [List.map_drop]
    exact List.Nodup.sublist (List.drop_sublist _ _) hN

lemma goodRun_step (ftE : Nat) (r : RunState) (op : CacheOp) (h : goodRun r) :
    goodRun (applyOp ftE r op) := by
  obtain ⟨hA, hN, hS⟩ := h
  cases op with
  | evict =>
    obtain ⟨hlru, hA', hN'⟩ := evict_ok ftE r.cache hA hN
    simp only [goodRun, applyOp]
    refine ⟨hA', hN', ?_⟩
    intro ht
    rw [Bool.or_eq_false_iff] at ht
    have h2 := ht.2
    rw [evictTruncates, Bool.not_eq_false'] at h2
    rw [DiskCache.evictBatch_eq] at h2
    have hempty : r.cache.lru.entries.drop (ftE - 1) = [] := List.isEmpty_iff.mp h2
    left
    rw [hlru]
    simp [LruCache.size, hempty]
  | insert k b =>
    cases hc : r.cache.lru.contains_key k with
    | true =>
      have hins : DiskCache.insert ftE r.cache k b = (r.cache, []) := by
        simp [DiskCache.insert, hc]
      have htr : insertTruncates ftE r.cache k b = false := by
        simp [insertTruncates, hc]
      simp only [goodRun, applyOp, hins, htr, Bool.or_false]
      exact ⟨hA, hN, hS⟩
    | false =>
      by_cases hs : r.cache.lru.size + b.length > r.cache.lru.capacity
      · obtain ⟨hlru, hA', hN'⟩ := evict_ok ftE r.cache hA hN
        have hins : (DiskCache.insert ftE r.cache k b).fst =
            { lru := (DiskCache.evict ftE r.cache).fst.lru.insert k b.length,
              fs := fsWrite (DiskCache.evict ftE r.cache).fst.fs k b } := by
          simp [DiskCache.insert, hc, hs]
        have hcdrop : (DiskCache.evict ftE r.cache).fst.lru.contains_key k = false := by
          rw [hlru, contains_key_false_iff]
          intro e he
          exact (contains_key_false_iff _ _).mp hc e (List.mem_of_mem_drop he)
        have hent : (DiskCache.insert ftE r.cache k b).fst.lru.entries =
            r.cache.lru.entries.drop (ftE - 1) ++ [(k, b.length)] := by
          rw [hins]
          show ((DiskCache.evict ftE r.cache).fst.lru.insert k b.length).entries = _
          rw [LruCache.insert_entries_of_not_contains _ _ _ hcdrop, hlru]
        simp only [goodRun, applyOp]
        refine ⟨?_, ?_, ?_⟩
        · intro e he
          rw [hent] at he
          rw [hins]
          rcases List.mem_append.mp he with h1 | h2
          · refine fsHas_fsWrite_mono _ _ _ _ (hA' e ?_)
            rw [hlru]
            exact h1
          · have : e = (k, b.length) := by simpa using h2
            rw [this]
            exact fsHas_fsWrite_self _ _ _
        · rw [lruKeysNodup, hent, List.map_append, List.nodup_append]
          refine ⟨?_, by simp, ?_⟩
          · rw [List.map_drop]
            exact List.Nodup.sublist (List.drop_sublist _ _) hN
          · intro x hx1 hx2
            have hxk : x = k := by simpa using hx2
            rw [hxk] at hx1
            obtain ⟨e, he, hek⟩ := List.mem_map.mp hx1
            exact (contains_key_false_iff _ _).mp hc e (List.mem_of_mem_drop he) hek
        · intro ht
          rw [Bool.or_eq_false_iff] at ht
          have h2 := ht.2
          rw [insertTruncates, hc] at h2
          simp only [Bool.not_false, Bool.true_and, decide_eq_true hs,
            Bool.not_eq_false'] at h2
          rw [DiskCache.evictBatch_eq] at h2
          have hempty : r.cache.lru.entries.drop (ftE - 1) = [] := List.isEmpty_iff.mp h2
          have hone : (DiskCache.insert ftE r.cache k b).fst.lru.entries = [(k, b.length)] := by
            rw [hent, hempty]
            rfl
          have hcap : (DiskCache.insert ftE r.cache k b).fst.lru.capacity =
              r.cache.lru.capacity := by
            rw [hins]
            show ((DiskCache.evict ftE r.cache).fst.lru.insert k b.length).capacity = _
            rw [LruCache.insert_capacity, hlru]
          by_cases hbc : b.length ≤ r.cache.lru.capacity
          · left
            rw [hcap]
            simp [LruCache.size, hone]
            exact hbc
          · right
            exact ⟨(k, b.length), hone, by rw [hcap]; omega⟩
      · have hins : (DiskCache.insert ftE r.cache k b).fst =
            { lru := r.cache.lru.insert k b.length, fs := fsWrite r.cache.fs k b } := by
          simp [DiskCache.insert, hc, hs]
        have hent : (DiskCache.insert ftE r.cache k b).fst.lru.entries =
            r.cache.lru.entries ++ [(k, b.length)] := by
          rw [hins]
          exact LruCache.insert_entries_of_not_contains _ _ _ hc
        simp only [goodRun, applyOp]
        refine ⟨?_, ?_, ?_⟩
        · intro e he
          rw [hent] at he
          rw [hins]
          rcases List.mem_append.mp he with h1 | h2
          · exact fsHas_fsWrite_mono _ _ _ _ (hA e h1)
          · have : e = (k, b.length) := by simpa using h2
            rw [this]
            exact fsHas_fsWrite_self _ _ _
        · rw [lruKeysNodup, hent, List.map_append, List.nodup_append]
          refine ⟨hN, by simp, ?_⟩
          intro x hx1 hx2
          have hxk : x = k := by simpa using hx2
          rw [hxk] at hx1
          obtain ⟨e, he, hek⟩ := List.mem_map.mp hx1
          exact (contains_key_false_iff _ _).mp hc e he hek
        · intro _
          left
          have hsz : (DiskCache.insert ftE r.cache k b).fst.lru.size =
              r.cache.lru.size + b.length := by
            rw [hins]
            exact LruCache.insert_size_of_not_contains _ _ _ hc
          have hcap : (DiskCache.insert ftE r.cache k b).fst.lru.capacity =
              r.cache.lru.capacity := by
            rw [hins]
            rfl
          rw [hsz, hcap]
          omega

lemma goodRun_foldl (ftE : Nat) (ops : List CacheOp) (r : RunState)
    (h : goodRun r) : goodRun (ops.foldl (applyOp ftE) r) := by
  induction ops generalizing r with
  | nil => exact h
  | cons op rest ih => exact ih _ (goodRun_step ftE r op h)

lemma goodRun_runOps (ftE capacity : Nat) (ops : List CacheOp) :
    goodRun (runOps ftE capacity ops) := by
  refine goodRun_foldl ftE ops (initRun capacity) ⟨?_, ?_, ?_⟩
  · intro e he
    simp [initRun] at he
  · simp [lruKeysNodup, initRun]
  · intro _
    left
    simp [initRun, LruCache.size]

/-- Shape of a fresh-key `DiskCache::insert`: some pre-state (the evicted
one or the original), with the new entry recorded, the file written and the
`added` call made last. -/
lemma insert_shape (ftE : Nat) (s : DiskCacheState) (k : String) (b : Bytes)
    (h : s.lru.contains_key k = false) :
    ∃ (s₀ : DiskCacheState) (evs₀ : List NotifyEvent),
      DiskCache.insert ftE s k b =
        ({ lru := s₀.lru.insert k b.length, fs := fsWrite s₀.fs k b },
          evs₀ ++ [NotifyEvent.added k]) := by
  by_cases hs : s.lru.size + b.length > s.lru.capacity
  · exact ⟨(DiskCache.evict ftE s).fst, (DiskCache.evict ftE s).snd,
      by simp [DiskCache.insert, h, hs]⟩
  · exact ⟨s, [], by simp [DiskCache.insert, h, hs]⟩

/-- With the command channel closed, every round trip of the concrete
notifier fails and its unwrap panics on the first call of the trace. -/
lemma runNotifier_closed_panics (replies : String → Except String Unit)
    (evs : List NotifyEvent) (hne : evs ≠ []) :
    (runNotifier false replies evs).isPanic = true := by
  cases evs with
  | nil => exact absurd rfl hne
  | cons e rest =>
    cases e with
    | added k =>
      simp [runNotifier, notifierAdded, roundTrip, PanicOr.isPanic]
    | removed k =>
      simp [runNotifier, notifierRemoved, roundTrip, PanicOr.isPanic]

lemma countReplies_append_reply (rid r : Nat) (c : Option Bytes)
    (l : List Delivery) :
    countReplies rid (l ++ [Delivery.getFileReply r c]) =
      countReplies rid l + (if r = rid then 1 else 0) := by
  rw [countReplies, countReplies, List.countP_append]
  by_cases h : r = rid <;> simp [List.countP_cons, h]

/-- Once the correlation table has no entry for a request id, later
responses for it deliver nothing and the table entry stays absent. -/
lemma processResponses_stable (rs : List (Nat × Option Bytes)) (s : LoopState)
    (rid : Nat) (h : s.pending_get_file rid = none) :
    countReplies rid (processResponses s rs).delivered =
      countReplies rid s.delivered ∧
    (processResponses s rs).pending_get_file rid = none := by
  induction rs generalizing s with
  | nil => exact ⟨rfl, h⟩
  | cons r rest ih =>
    cases hp : s.pending_get_file r.fst with
    | none =>
      have hstep : processResponses s (r :: rest) = processResponses s rest := by
        simp [processResponses, handle_response, hp]
      rw [hstep]
      exact ih s h
    | some alive =>
      have hne : r.fst ≠ rid := by
        intro hrr
        rw [hrr, h] at hp
        exact Option.noConfusion hp
      cases alive with
      | false =>
        have hstep : processResponses s (r :: rest) = s := by
          simp [processResponses, handle_response, hp, expectSend]
        rw [hstep]
        exact ⟨rfl, h⟩
      | true =>
        have hstep : processResponses s (r :: rest) =
            processResponses { s with
              pending_get_file := mapRemove s.pending_get_file r.fst,
              delivered := s.delivered ++ [Delivery.getFileReply r.fst r.snd] }
              rest := by
          simp [processResponses, handle_response, hp, expectSend]
        rw [hstep]
        have h' : (mapRemove s.pending_get_file r.fst) rid = none := by
          rw [mapRemove]
          by_cases hrr : rid = r.fst <;> simp [hrr, h]
        have := ih { s with
          pending_get_file := mapRemove s.pending_get_file r.fst,
          delivered := s.delivered ++ [Delivery.getFileReply r.fst r.snd] } h'
        refine ⟨?_, this.2⟩
        rw [this.1]
        simp only
        rw [countReplies_append_reply rid r.fst r.snd s.delivered]
        simp [hne]

/-! ### Claim theorems -/

/-- C1, counterexample: with capacity 10 and `files_to_evict = 2`, inserting
blobs of sizes 4, 4 and 8 ends with `current_size = 12 > 10` while every
cached blob has size at most 10 — after a completed insert the claimed
disjunction (size within capacity, or some single blob above capacity)
fails. -/
theorem capacity_bound_counterexample :
    ¬((runOps 2 10 overflowOps).cache.lru.size ≤
        (runOps 2 10 overflowOps).cache.lru.capacity ∨
      ∃ e ∈ (runOps 2 10 overflowOps).cache.lru.entries,
        (runOps 2 10 overflowOps).cache.lru.capacity < e.snd) := by
  decide

/-- C1, amended: for every sequence of insert and evict operations from a
fresh cache, as long as no eviction pass has been truncated at its
`files_to_evict - 1` batch limit while entries remained, after each
completed operation `current_size ≤ capacity` or the cache holds a single
blob whose size exceeds the capacity.  A truncated pass can leave
`current_size > capacity` spread over several blobs. -/
theorem capacity_bound_untruncated (files_to_evict capacity : Nat)
    (ops : List CacheOp)
    (h : (runOps files_to_evict capacity ops).truncated = false) :
    sizeOk (runOps files_to_evict capacity ops).cache :=
  (goodRun_runOps files_to_evict capacity ops).2.2 h

/-- C1, witness: a concrete untruncated run (capacity 10, sizes 3, 3, 4)
satisfying the amended capacity bound. -/
theorem capacity_bound_untruncated_witness :
    (runOps 3 10 settledOps).truncated = false ∧
    sizeOk (runOps 3 10 settledOps).cache :=
  ⟨by decide, capacity_bound_untruncated 3 10 settledOps (by decide)⟩

/-- C2: the `Disca::get` pipeline.  On a cache hit the handle is returned
with no network use and no notifier call; on a miss with the network
returning bytes, the bytes are inserted and the resulting local handle
(holding exactly those bytes) is returned; on a miss with the network
reporting absent, absent is returned; a network error propagates. -/
theorem disca_get_pipeline (files_to_evict : Nat) (s : DiskCacheState)
    (k : String) (hA : fileIndexAgree s) :
    (∀ b, fsRead s.fs k = some b → ∀ net,
      Disca.get files_to_evict s k net =
        Except.ok (DiskCache.touch s k, [], some b)) ∧
    (∀ c, fsRead s.fs k = none →
      ∃ (s' : DiskCacheState) (evs : List NotifyEvent),
        Disca.get files_to_evict s k (Except.ok (some c)) =
          Except.ok (s', evs, some c) ∧ fsRead s'.fs k = some c) ∧
    (fsRead s.fs k = none →
      Disca.get files_to_evict s k (Except.ok none) =
        Except.ok (DiskCache.touch s k, [], none)) ∧
    (∀ err, fsRead s.fs k = none →
      Disca.get files_to_evict s k (Except.error err) = Except.error err) := by
  refine ⟨?_, ?_, ?_, ?_⟩
  · intro b hb net
    simp [Disca.get, DiskCache.get, DiskCache.touch, hb]
  · intro c hm
    have hhas : fsHas s.fs k = false := fsHas_false_of_fsRead_none _ _ hm
    have hc : s.lru.contains_key k = false := by
      cases hcc : s.lru.contains_key k with
      | false => rfl
      | true =>
        exfalso
        obtain ⟨e, he, hek⟩ := List.any_eq_true.mp hcc
        have hfile := hA e he
        rw [show e.fst = k from by simpa using hek, hhas] at hfile
        exact Bool.noConfusion hfile
    have hget : s.lru.get k = s.lru := LruCache.get_of_not_contains _ _ hc
    obtain ⟨s₀, evs₀, hsh⟩ := insert_shape files_to_evict s k c hc
    refine ⟨(DiskCache.get (DiskCache.insert files_to_evict s k c).fst k).fst,
      (DiskCache.insert files_to_evict s k c).snd, ?_, ?_⟩
    · have hread : fsRead (DiskCache.insert files_to_evict s k c).fst.fs k = some c := by
        rw [hsh]
        exact fsRead_fsWrite_self _ _ _
      simp [Disca.get, DiskCache.get, hm, hget, hread]
    · show fsRead (DiskCache.insert files_to_evict s k c).fst.fs k = some c
      rw [hsh]
      exact fsRead_fsWrite_self _ _ _
  · intro hm
    simp [Disca.get, DiskCache.get, DiskCache.touch, hm]
  · intro err hm
    simp [Disca.get, DiskCache.get, hm]

/-- C2, witness: on the concrete consistent state holding key `x`, a get is
a cache hit and returns the stored bytes without touching the network. -/
theorem disca_get_pipeline_witness :
    fsRead demoState.fs "x" = some [7] ∧
    Disca.get 2 demoState "x" (Except.ok none) =
      Except.ok (DiskCache.touch demoState "x", [], some [7]) :=
  ⟨by decide,
   (disca_get_pipeline 2 demoState "x" (by decide)).1 [7] (by decide)
     (Except.ok none)⟩

/-- C3: insert is idempotent on the key.  After a fresh `insert(k, b)`, a
second `insert(k, b')` returns with no state change and no notifier call,
the stored bytes for `k` are still `b`, and the recorded entry is
`(k, len b)` at the most-recently-used end. -/
theorem insert_idempotent_on_key (files_to_evict : Nat) (s : DiskCacheState)
    (k : String) (b b' : Bytes) (h : s.lru.contains_key k = false) :
    DiskCache.insert files_to_evict
        (DiskCache.insert files_to_evict s k b).fst k b' =
      ((DiskCache.insert files_to_evict s k b).fst, []) ∧
    fsRead (DiskCache.insert files_to_evict s k b).fst.fs k = some b ∧
    (DiskCache.insert files_to_evict s k b).fst.lru.entries.getLast? =
      some (k, b.length) := by
  obtain ⟨s₀, evs₀, hsh⟩ := insert_shape files_to_evict s k b h
  have h1 : (DiskCache.insert files_to_evict s k b).fst =
      { lru := s₀.lru.insert k b.length, fs := fsWrite s₀.fs k b } := by
    rw [hsh]
  refine ⟨?_, ?_, ?_⟩
  · rw [h1]
    simp [DiskCache.insert, LruCache.contains_key_insert_self]
  · rw [h1]
    exact fsRead_fsWrite_self _ _ _
  · rw [h1]
    exact LruCache.insert_entries_getLast _ _ _

/-- C3, witness: concrete double insert of key `k` with bytes `[1, 2]` then
`[3]` from the fresh cache. -/
theorem insert_idempotent_on_key_witness :
    DiskCache.insert 2
        (DiskCache.insert 2 (initRun 10).cache "k" [1, 2]).fst "k" [3] =
      ((DiskCache.insert 2 (initRun 10).cache "k" [1, 2]).fst, []) ∧
    fsRead (DiskCache.insert 2 (initRun 10).cache "k" [1, 2]).fst.fs "k" =
      some [1, 2] ∧
    (DiskCache.insert 2 (initRun 10).cache "k" [1, 2]).fst.lru.entries.getLast? =
      some ("k", 2) :=
  insert_idempotent_on_key 2 (initRun 10).cache "k" [1, 2] [3] (by decide)

/-- C4, counterexample: with the command channel to the event loop closed,
the notifier call made by a fresh-key insert fails, and the unwrap in the
`FileNotifier` impl for `FileSharingP2P` turns the failure into a panic of
the cache operation — the failure does not stay inside the notifier. -/
theorem notifier_failure_panics :
    (insertWithP2PNotifier 2 false (fun _ => Except.ok ())
      (initRun 10).cache "k" [1, 2]).isPanic = true := by
  decide

/-- C4, amended: for every fresh-key insert through the concrete
`FileSharingP2P` notifier with a failing round trip (closed command
channel), the cache operation panics; notifier failures surface as panics,
not as errors, of the cache operation. -/
theorem notifier_failure_panics_insert (files_to_evict : Nat)
    (s : DiskCacheState) (k : String) (b : Bytes)
    (replies : String → Except String Unit)
    (h : s.lru.contains_key k = false) :
    (insertWithP2PNotifier files_to_evict false replies s k b).isPanic =
      true := by
  obtain ⟨s₀, evs₀, hsh⟩ := insert_shape files_to_evict s k b h
  have hne : (DiskCache.insert files_to_evict s k b).snd ≠ [] := by
    rw [hsh]
    simp
  have hp := runNotifier_closed_panics replies _ hne
  rw [insertWithP2PNotifier]
  cases hrn : runNotifier false replies (DiskCache.insert files_to_evict s k b).snd with
  | panic m => simp [hrn, PanicOr.isPanic]
  | ok u =>
    rw [hrn] at hp
    exact absurd hp (by simp [PanicOr.isPanic])

/-- C4, witness: concrete fresh-key insert on `demoState` with the channel
closed panics. -/
theorem notifier_failure_panics_insert_witness :
    (insertWithP2PNotifier 2 false (fun _ => Except.ok ())
      demoState "y" [1]).isPanic = true :=
  notifier_failure_panics_insert 2 demoState "y" [1] (fun _ => Except.ok ())
    (by decide)

/-- C5: one `evict` pass leaves exactly the entries beyond the first
`files_to_evict - 1` (so it removes at most `files_to_evict - 1`, fewer when
the index holds fewer), and with `files_to_evict = 1` it removes nothing
and makes no notifier call (the Rust range `1..1` is empty). -/
theorem evict_batch_bound (files_to_evict : Nat) (s : DiskCacheState)
    (hA : fileIndexAgree s) (hN : lruKeysNodup s) :
    (DiskCache.evict files_to_evict s).fst.lru.entries =
      s.lru.entries.drop (files_to_evict - 1) ∧
    s.lru.entries.length -
        (DiskCache.evict files_to_evict s).fst.lru.entries.length ≤
      files_to_evict - 1 ∧
    DiskCache.evict 1 s = (s, []) := by
  obtain ⟨hlru, _, _⟩ := evict_ok files_to_evict s hA hN
  refine ⟨by rw [hlru], ?_, rfl⟩
  rw [hlru]
  simp only [List.length_drop]
  omega

/-- C5, witness: concrete eviction on the consistent one-entry state. -/
theorem evict_batch_bound_witness :
    (DiskCache.evict 3 demoState).fst.lru.entries =
      demoState.lru.entries.drop (3 - 1) ∧
    demoState.lru.entries.length -
        (DiskCache.evict 3 demoState).fst.lru.entries.length ≤ 3 - 1 ∧
    DiskCache.evict 1 demoState = (demoState, []) :=
  evict_batch_bound 3 demoState (by decide) (by decide)

/-- C6: when the command channel has closed (the receiver yields `None`),
one iteration of the run loop leaves the loop state unchanged — the
pending sinks are retained, not dropped — and does not exit the loop: the
`return;` in the `None` arm leaves only `handle_command`, and the loop body
of `run` has no break, so the exit flag of the iteration is `false` and the
loop keeps polling forever. -/
theorem closed_channel_continues_loop (env : SwarmEnv)
    (fileProvider : String → Option Bytes) (s : LoopState) :
    runStep env fileProvider s (Sum.inl none) = (PanicOr.ok s, false) := rfl

/-- C7, counterexample: a response for a request whose caller dropped its
one-shot receiver makes the delivery fail, and the
`expect("send should work")` panics the event loop instead of failing
silently. -/
theorem dropped_receiver_delivery_panics :
    (handle_response deadSinkLoop 5 (some [1])).isPanic = true := rfl

/-- C7, amended: for every pending command whose caller has dropped its
one-shot receiver, the delivery attempt of the loop panics the event-loop task
with the expect message; it is not a silent logged failure. -/
theorem dropped_receiver_panics (s : LoopState) (rid : Nat)
    (content : Option Bytes) (h : s.pending_get_file rid = some false) :
    handle_response s rid content = PanicOr.panic "send should work" := by
  simp [handle_response, h, expectSend]

/-- C7, witness: concrete delivery to the dropped receiver of request 5. -/
theorem dropped_receiver_panics_witness :
    handle_response deadSinkLoop 5 none = PanicOr.panic "send should work" :=
  dropped_receiver_panics deadSinkLoop 5 none (by decide)

/-- C8, counterexample: an Identify event whose reported listen-address
list is empty panics the event loop (`first().unwrap()` on an empty list)
instead of being ignored. -/
theorem identify_empty_list_panics :
    (handle_event env0 fp0 emptyLoop
      (NetEvent.identifyReceived 7 [])).isPanic = true := rfl

/-- C8, amended: on an Identify event with a nonempty reported
listen-address list, the loop adds the peer with the first address to the
DHT routing table and changes nothing else; on an empty list the loop
panics (the event is not ignored). -/
theorem identify_first_address (env : SwarmEnv)
    (fileProvider : String → Option Bytes) (s : LoopState) (peer : Nat) :
    (∀ a rest,
      handle_event env fileProvider s
          (NetEvent.identifyReceived peer (a :: rest)) =
        PanicOr.ok { s with routing := s.routing ++ [(peer, a)] }) ∧
    (handle_event env fileProvider s
      (NetEvent.identifyReceived peer [])).isPanic = true :=
  ⟨fun _ _ => rfl, rfl⟩

/-- C9: at most one terminal reply per request id.  Processing any stream
of response messages adds at most one `GetFile` delivery for a given
request id, and the first delivered response removes the correlation-table
entry (so later responses for the same id find no sink and are dropped). -/
theorem single_terminal_reply (s : LoopState)
    (rs : List (Nat × Option Bytes)) (rid : Nat) :
    (countReplies rid (processResponses s rs).delivered ≤
      countReplies rid s.delivered + 1) ∧
    (∀ content, s.pending_get_file rid = some true →
      handle_response s rid content =
        PanicOr.ok { s with
          pending_get_file := mapRemove s.pending_get_file rid,
          delivered := s.delivered ++ [Delivery.getFileReply rid content] }) := by
  constructor
  · induction rs generalizing s with
    | nil =>
      rw [show processResponses s [] = s from rfl]
      omega
    | cons r rest ih =>
      cases hp : s.pending_get_file r.fst with
      | none =>
        have hstep : processResponses s (r :: rest) = processResponses s rest := by
          simp [processResponses, handle_response, hp]
        rw [hstep]
        exact ih s
      | some alive =>
        cases alive with
        | false =>
          have hstep : processResponses s (r :: rest) = s := by
            simp [processResponses, handle_response, hp, expectSend]
          rw [hstep]
          omega
        | true =>
          have hstep : processResponses s (r :: rest) =
              processResponses { s with
                pending_get_file := mapRemove s.pending_get_file r.fst,
                delivered := s.delivered ++ [Delivery.getFileReply r.fst r.snd] }
                rest := by
            simp [processResponses, handle_response, hp, expectSend]
          rw [hstep]
          by_cases hrr : r.fst = rid
          · have h' : (mapRemove s.pending_get_file r.fst) rid = none := by
              rw [mapRemove]
              simp [hrr]
            have hst := processResponses_stable rest { s with
              pending_get_file := mapRemove s.pending_get_file r.fst,
              delivered := s.delivered ++ [Delivery.getFileReply r.fst r.snd] }
              rid h'
            rw [hst.1]
            simp only
            rw [countReplies_append_reply rid r.fst r.snd s.delivered]
            simp [hrr]
          · have := ih { s with
              pending_get_file := mapRemove s.pending_get_file r.fst,
              delivered := s.delivered ++ [Delivery.getFileReply r.fst r.snd] }
            rw [countReplies_append_reply rid r.fst r.snd s.delivered] at this
            simp only [hrr, if_false] at this
            simpa using this
  · intro content h
    simp [handle_response, h, expectSend]

/-- C9, witness: two responses for request id 3 deliver at most one reply,
and the first response removes the table entry. -/
theorem single_terminal_reply_witness :
    (countReplies 3 (processResponses liveSinkLoop
        [(3, some [1]), (3, some [2])]).delivered ≤
      countReplies 3 liveSinkLoop.delivered + 1) ∧
    handle_response liveSinkLoop 3 (some [1]) =
      PanicOr.ok { liveSinkLoop with
        pending_get_file := mapRemove liveSinkLoop.pending_get_file 3,
        delivered := liveSinkLoop.delivered ++
          [Delivery.getFileReply 3 (some [1])] } :=
  ⟨(single_terminal_reply liveSinkLoop [(3, some [1]), (3, some [2])] 3).1,
   (single_terminal_reply liveSinkLoop [] 3).2 (some [1]) (by decide)⟩

/-- C10: re-inserting a key already present in the LRU index changes
nothing and makes no notifier call: the returned event trace is empty, so
no `added` advertisement is pushed, and the state (so also the index — no
eviction ran) is unchanged. -/
theorem reinsert_does_not_readvertise (files_to_evict : Nat)
    (s : DiskCacheState) (k : String) (b : Bytes)
    (h : s.lru.contains_key k = true) :
    DiskCache.insert files_to_evict s k b = (s, []) := by
  simp [DiskCache.insert, h]

/-- C10, witness: concrete re-insert of the cached key `x`. -/
theorem reinsert_does_not_readvertise_witness :
    DiskCache.insert 2 demoState "x" [9, 9] = (demoState, []) :=
  reinsert_does_not_readvertise 2 demoState "x" [9, 9] (by decide)

end DiscaSpec
